import Mathlib

/-!
# Verification of the mbjs module-lifecycle orchestrator

Shallow embedding of `src/lib/mbjs-module/index.js` (the `Application` class:
`throwError`, `require`, `init`, `_start`, `_stop`, `module`, `signalInterrupt`)
and of the exit disposition computed in `src/lib/bin.js`.  JavaScript strings
are Lean `String`s, JS objects used as string-keyed dictionaries are
association lists in insertion order, promise outcomes are an explicit
`SettledOutcome` type, and the timer race inside `_stop` is modelled with
explicit settle times together with the timer-API semantics the code relies
on (`clearTimeout` cancels only when given the handle returned by
`setTimeout`; a timer invokes its callback with `this` bound to the Timeout
object).
-/

set_option autoImplicit false

namespace Mbjs

/-- A JS `Error` as built by `Application.throwError`: a `message` and the
machine-readable `code` property assigned after construction. -/
structure JsError where
  message : String
  code : String
deriving DecidableEq, Repr

/-- Outcome of a call to `throwError`: either the error object is returned to
the caller (`justReturn === true`) or it is thrown (`throw er`). -/
inductive ThrowResult where
  | returned (er : JsError)
  | thrown (er : JsError)
deriving DecidableEq, Repr

/-- `Application.throwError(errCode, msg = 'Error', justReturn = false)`
(index.js lines 176-184): builds `new Error(msg)`, sets
`er.code = mainModuleCodeUpper + '_' + errCode`, then either returns or
throws it. -/
def throwError' (mainModuleCodeUpper errCode msg : String) (justReturn : Bool) :
    ThrowResult :=
  let er : JsError := ⟨msg, mainModuleCodeUpper ++ "_" ++ errCode⟩
  if justReturn then .returned er else .thrown er

/-- `String.prototype.split(sep)` for a single-character separator, on the
character list of the string.  `splitOnChar sep l` is never empty. -/
def splitOnChar (sep : Char) : List Char → List (List Char)
  | [] => [[]]
  | c :: cs =>
    match splitOnChar sep cs with
    | [] => [[]]
    | g :: gs => if c = sep then [] :: g :: gs else (c :: g) :: gs

/-- `Array.prototype.join(sep)` for a single-character separator. -/
def joinWith (sep : Char) : List (List Char) → List Char
  | [] => []
  | [g] => g
  | g :: g' :: gs => g ++ sep :: joinWith sep (g' :: gs)

theorem splitOnChar_ne_nil (sep : Char) (l : List Char) :
    splitOnChar sep l ≠ [] := by
  cases l with
  | nil => simp [splitOnChar]
  | cons c cs =>
    simp only [splitOnChar]
    cases h : splitOnChar sep cs with
    | nil => simp
    | cons g gs =>
      by_cases hc : c = sep <;> simp [hc]

/-- Splitting on a character and joining with another replaces every
occurrence of the first character by the second. -/
theorem joinWith_splitOnChar (sep rep : Char) (l : List Char) :
    joinWith rep (splitOnChar sep l) =
      l.map (fun c => if c = sep then rep else c) := by
  induction l with
  | nil => simp [splitOnChar, joinWith]
  | cons c cs ih =>
    simp only [splitOnChar]
    cases h : splitOnChar sep cs with
    | nil => exact absurd h (splitOnChar_ne_nil sep cs)
    | cons g gs =>
      rw [h] at ih
      by_cases hc : c = sep
      · subst hc
        simp only [if_pos rfl, List.map_cons, if_pos rfl]
        cases gs with
        | nil => simpa [joinWith] using ih
        | cons g' gs' => simpa [joinWith] using ih
      · simp only [if_neg hc, List.map_cons, if_neg hc]
        cases gs with
        | nil => simpa [joinWith] using ih
        | cons g' gs' => simpa [joinWith] using congrArg (c :: ·) ih

/-- `config[mainAppName].name.split('-').join('_').toUpperCase()`
(index.js lines 89-92): the error-code namespace attribute
`mainModuleCodeUpper` computed by the constructor. -/
def mainCodeOf (name : String) : String :=
  ⟨(joinWith '_' (splitOnChar '-' name.data)).map Char.toUpper⟩

/-- The transformation as the spec words it: the application name with every
hyphen replaced by an underscore, then upper-cased. -/
def specCodeOf (name : String) : String :=
  ⟨(name.data.map (fun c => if c = '-' then '_' else c)).map Char.toUpper⟩

theorem mainCodeOf_eq_specCodeOf (name : String) :
    mainCodeOf name = specCodeOf name := by
  unfold mainCodeOf specCodeOf
  exact congrArg (fun l => String.mk (l.map Char.toUpper))
    (joinWith_splitOnChar '-' '_' name.data)

/-! ## String-keyed JS objects as association lists (insertion order) -/

section AssocOps

variable {α : Type}

/-- `Object.hasOwnProperty.call(obj, k)`. -/
def hasOwn (m : List (String × α)) (k : String) : Bool :=
  match m with
  | [] => false
  | (k', _) :: rest => k' == k || hasOwn rest k

/-- Property read `obj[k]` (`none` models `undefined`). -/
def getKey (m : List (String × α)) (k : String) : Option α :=
  match m with
  | [] => none
  | (k', v) :: rest => if k' == k then some v else getKey rest k

/-- Property write `obj[k] = v`: overwrites an existing key in place,
otherwise appends the new key (JS insertion order). -/
def setKey (m : List (String × α)) (k : String) (v : α) : List (String × α) :=
  match m with
  | [] => [(k, v)]
  | (k', v') :: rest =>
    if k' == k then (k, v) :: rest else (k', v') :: setKey rest k v

theorem getKey_setKey_self (m : List (String × α)) (k : String) (v : α) :
    getKey (setKey m k v) k = some v := by
  induction m with
  | nil => simp [setKey, getKey]
  | cons p rest ih =>
    obtain ⟨k', v'⟩ := p
    by_cases h : k' == k
    · simp [setKey, h, getKey]
    · simp [setKey, h, getKey, ih]

theorem getKey_setKey_ne (m : List (String × α)) (k k' : String) (v : α)
    (h : (k' == k) = false) : getKey (setKey m k' v) k = getKey m k := by
  induction m with
  | nil => simp [setKey, getKey, h]
  | cons p rest ih =>
    obtain ⟨k₀, v₀⟩ := p
    by_cases h₀ : k₀ == k'
    · have hk : (k₀ == k) = false := by
        have := eq_of_beq h₀
        subst this
        exact h
      simp [setKey, h₀, getKey, hk, h]
    · simp only [setKey, h₀]
      by_cases hk : k₀ == k <;> simp [getKey, hk, ih]

end AssocOps

/-! ## Application state, `require` and `init` -/

/-- The mutable fields of `Application` that `require` touches
(index.js lines 75-105): `this.config`, `this.modules`, `this.AllModules`.
`Cfg` is the type of per-module configuration objects and `Cls` the type of
resolved module classes. -/
structure AppState (Cfg Cls : Type) where
  config : List (String × Cfg)
  modules : List String
  AllModules : List (String × Cls)
deriving Repr

/-- One iteration of the `forEach` body of `Application.require`
(index.js lines 192-201): if `sec` is not an own property of `this.config`,
set `this.config[sec] = conf` and push `sec` onto `this.modules`; then
record the resolved class `require(resolve(this.srcdir, sec))`, modelled by
`resolveMod sec`, in `this.AllModules[sec]`. -/
def requireOne {Cfg Cls : Type} (resolveMod : String → Cls) (conf : Cfg)
    (st : AppState Cfg Cls) (sec : String) : AppState Cfg Cls :=
  let st1 :=
    if hasOwn st.config sec then st
    else { st with
            config := st.config ++ [(sec, conf)]
            modules := st.modules ++ [sec] }
  { st1 with AllModules := setKey st1.AllModules sec (resolveMod sec) }

/-- `Application.require(modules, conf = {})` (index.js lines 192-201):
iterates `(modules || this.modules)`.  `forEach` fixes the visited range
before the first callback, so pushes performed by the body are not visited;
the fold therefore runs over the snapshot of the argument list. -/
def requireModules {Cfg Cls : Type} (resolveMod : String → Cls)
    (st : AppState Cfg Cls) (modulesArg : Option (List String)) (conf : Cfg) :
    AppState Cfg Cls :=
  (modulesArg.getD st.modules).foldl (requireOne resolveMod conf) st

/-- The distinguished main-application key `Application.mainAppName`
(index.js line 340). -/
def mainAppName : String := "mbjs-app"

/-- An entry of the instance registry `this.allModules`: `init` binds the
main-app key to the application itself and every other key to a constructed
instance `new this.AllModules[sec](this.config[sec], this)`; the class
lookup may yield `undefined`, hence the `Option`. -/
inductive InstanceVal (Cls : Type) where
  | appSelf
  | constructed (cls : Option Cls)
deriving DecidableEq, Repr

/-- The `forEach` body of `Application.init` (index.js lines 209-216):
bind `this.allModules[sec]` to `this` when
`sec === Application.mainAppName`, else to the constructed instance
`new this.AllModules[sec](this.config[sec], this)`. -/
def initStep {Cfg Cls : Type} (st : AppState Cfg Cls)
    (acc : List (String × InstanceVal Cls)) (sec : String) :
    List (String × InstanceVal Cls) :=
  if sec == mainAppName then setKey acc sec .appSelf
  else setKey acc sec (.constructed (getKey st.AllModules sec))

/-- `Application.init(modules)` (index.js lines 208-217): iterate the body
over `(modules || this.modules)`, starting from the current
`this.allModules`. -/
def initModules {Cfg Cls : Type} (st : AppState Cfg Cls)
    (inst0 : List (String × InstanceVal Cls)) (modulesArg : Option (List String)) :
    List (String × InstanceVal Cls) :=
  (modulesArg.getD st.modules).foldl (initStep st) inst0

/-! ## Promise outcomes -/

/-- A JS value as far as the lifecycle code observes it. -/
inductive JsVal where
  | strV (s : String)
  | numV (n : Nat)
  | errV (code message : String)
deriving DecidableEq, Repr

/-- The final state of a settled promise. -/
inductive SettledOutcome (V E : Type) where
  | fulfilled (v : V)
  | rejected (e : E)
deriving DecidableEq, Repr

/-- Whether a settled promise is fulfilled (`pm.status === 'fulfilled'` on an
`allSettled` slot). -/
def SettledOutcome.isFulfilled {V E : Type} : SettledOutcome V E → Bool
  | .fulfilled _ => true
  | .rejected _ => false

/-- The rejection reason of an outcome, if any. -/
def SettledOutcome.rejectedErr {V E : Type} : SettledOutcome V E → Option E
  | .fulfilled _ => none
  | .rejected e => some e

/-- `Promise.all` over a list of eventual outcomes: fulfilled with the list
of values when every constituent fulfills, otherwise rejected with the
reason of the first rejection. -/
def promiseAll {V E : Type} : List (SettledOutcome V E) → SettledOutcome (List V) E
  | [] => .fulfilled []
  | .rejected e :: _ => .rejected e
  | .fulfilled v :: rest =>
    match promiseAll rest with
    | .fulfilled vs => .fulfilled (v :: vs)
    | .rejected e => .rejected e

/-- The reason of the first rejected outcome in a list, if any. -/
def firstRejected {V E : Type} (ps : List (SettledOutcome V E)) : Option E :=
  ps.findSome? SettledOutcome.rejectedErr

/-! ## A registered module instance and `_start` -/

/-- A registered instance `this.allModules[sec]` as the start/stop fan-outs
observe it: its registry key, whether `typeof inst.start === 'function'`,
the eventual outcome of `inst.start()`, whether
`typeof inst.stop === 'function'`, the `inst.stopTimeout` attribute (`none`
models `undefined`), and when/how the promise returned by `inst.stop()`
settles (`none` models a stop that never settles). -/
structure ModuleObj where
  name : String
  hasStart : Bool
  startOutcome : SettledOutcome JsVal JsVal
  hasStop : Bool
  stopTimeout : Option Nat
  stopSettle : Option (Nat × SettledOutcome JsVal JsVal)
deriving DecidableEq, Repr

/-- The filter of `Application._start` (index.js lines 237-243):
`sec !== Application.mainAppName && typeof this.allModules[sec].start ===
'function'`. -/
def startTargets (mods : List ModuleObj) : List ModuleObj :=
  mods.filter (fun m => !(m.name == mainAppName) && m.hasStart)

/-- `Application._start` (index.js lines 237-243): `Promise.all` over
`start()` of every filtered instance. -/
def appStart (mods : List ModuleObj) : SettledOutcome (List JsVal) JsVal :=
  promiseAll ((startTargets mods).map ModuleObj.startOutcome)

/-! ## The `_stop` timer race

`_stop` (index.js lines 262-295) races each `inst.stop()` against
`setTimeout(tmFunc, tm)`.  Two facts of the JavaScript runtime decide the
behaviour and are made explicit here:

* `clearTimeout` cancels a pending timer only when it is given the handle
  that `setTimeout` returned; any other argument (the code passes the
  callback `tmFunc` itself) is silently ignored and cancels nothing.
* A timer invokes its callback with `this` bound to the `Timeout` object.
  `tmFunc` is a plain `function` expression, so inside it
  `this.throwError` is `undefined`, and evaluating
  `reject(this.throwError('STOP_TIMED_OUT', msg, true))` raises an uncaught
  `TypeError` before `reject` is ever called.
-/

/-- What the code passes to `clearTimeout`. -/
inductive ClearArg where
  | timerHandle
  | callbackFn
deriving DecidableEq, Repr

/-- `clearTimeout` cancels the pending timer only when given the handle
returned by `setTimeout`. -/
def clearTimeoutCancels : ClearArg → Bool
  | .timerHandle => true
  | .callbackFn => false

/-- Both settle handlers of `_stop` call `clearTimeout(tmFunc)` — the
callback function, not the handle that `setTimeout(tmFunc, tm)` returned
(which the code discards). -/
def stopClearArg : ClearArg := .callbackFn

/-- Possible receivers (`this`) of a `tmFunc` invocation. -/
inductive Receiver where
  | application
  | timeoutObj
deriving DecidableEq, Repr

/-- Whether `this.throwError` resolves to the application's error facility:
only on the `Application` instance; the `Timeout` object has no such
method. -/
def receiverHasThrowError : Receiver → Bool
  | .application => true
  | .timeoutObj => false

/-- `tmFunc` is a plain `function` expression, so when the timer fires the
runtime invokes it with `this` bound to the `Timeout` object. -/
def timerThis : Receiver := .timeoutObj

/-- The log line `tmFunc` writes via `console.error` (index.js lines
274-276). -/
def timeoutMsg (sec : String) (tm : Nat) : String :=
  "Stopping of " ++ sec ++ " timed out after " ++ toString tm ++ " ms!"

/-- Effect of one invocation of `tmFunc`: the message is always logged
first; then either the slot is rejected with the error built by
`throwError('STOP_TIMED_OUT', msg, true)` (receiver exposing `throwError`),
or looking up `this.throwError` yields `undefined` and calling it raises an
uncaught `TypeError`, so `reject` never runs. -/
inductive TimerFireEffect where
  | rejectedSlot (logged : String) (er : JsError)
  | uncaughtTypeError (logged : String)
deriving DecidableEq, Repr

/-- Run `tmFunc` (index.js lines 273-278) with a given receiver. -/
def tmFuncRun (mainModuleCodeUpper sec : String) (tm : Nat) (thisVal : Receiver) :
    TimerFireEffect :=
  let msg := timeoutMsg sec tm
  if receiverHasThrowError thisVal then
    match throwError' mainModuleCodeUpper "STOP_TIMED_OUT" msg true with
    | .returned er => .rejectedSlot msg er
    | .thrown er => .rejectedSlot msg er
  else
    .uncaughtTypeError msg

/-- The per-module stop timeout `tm` (index.js lines 269-272):
`inst.stopTimeout === undefined ? 2000 : inst.stopTimeout`. -/
def tmOf (m : ModuleObj) : Nat := m.stopTimeout.getD 2000

/-- Fate of one module's slot promise in `_stop`:
either it settles at some time with an outcome, or the timer callback
raises an uncaught `TypeError` at `tm` and the slot never settles. -/
inductive SlotFate where
  | settledAt (t : Nat) (out : SettledOutcome JsVal JsVal)
  | crashedAt (t : Nat) (logged : String)
deriving DecidableEq, Repr

/-- Result of evaluating one module's branch of `_stop`: the fate of its
slot, plus whether a scheduled timer is still pending afterwards (scheduled
by `setTimeout` and neither fired nor cancelled, because `clearTimeout` was
given `tmFunc` instead of the timer handle). -/
structure SlotResult where
  fate : SlotFate
  timerPending : Bool
deriving DecidableEq, Repr

/-- The timer fires: `tmFunc` runs with `this` bound to the `Timeout`
object.  Were the receiver the application, the slot would settle rejected
with the `STOP_TIMED_OUT` error; with the actual receiver the callback
raises an uncaught `TypeError` after logging, and the slot never settles. -/
def timerFires (mainModuleCodeUpper sec : String) (tm : Nat) : SlotResult :=
  match tmFuncRun mainModuleCodeUpper sec tm timerThis with
  | .rejectedSlot _ er => ⟨.settledAt tm (.rejected (.errV er.code er.message)), false⟩
  | .uncaughtTypeError logged => ⟨.crashedAt tm logged, false⟩

/-- One module's branch of `_stop` (index.js lines 264-292): a module
without a stop capability immediately yields
`Promise.resolve('stop MODULE_FUNCTION_NOT_FOUND')` and schedules no timer;
otherwise `stop()` is raced against the timer.  When `stop()` settles
strictly before `tm`, the `then` handlers settle the slot with the module's
own outcome and call `clearTimeout(tmFunc)`, which cancels nothing; when
the timer fires first (or `stop()` never settles) `tmFunc` runs. -/
def stopSlot (mainModuleCodeUpper : String) (m : ModuleObj) : SlotResult :=
  if !m.hasStop then
    ⟨.settledAt 0 (.fulfilled (.strV "stop MODULE_FUNCTION_NOT_FOUND")), false⟩
  else
    let tm := tmOf m
    match m.stopSettle with
    | some (ts, out) =>
      if ts < tm then ⟨.settledAt ts out, !clearTimeoutCancels stopClearArg⟩
      else timerFires mainModuleCodeUpper m.name tm
    | none => timerFires mainModuleCodeUpper m.name tm

/-- The later fire of a timer left pending by `stopSlot`: at `tm`, `tmFunc`
runs with `this` bound to the `Timeout` object. -/
def pendingTimerEffect (mainModuleCodeUpper : String) (m : ModuleObj) :
    Option (Nat × TimerFireEffect) :=
  if (stopSlot mainModuleCodeUpper m).timerPending then
    some (tmOf m, tmFuncRun mainModuleCodeUpper m.name (tmOf m) timerThis)
  else none

/-- The iteration set of `Application._stop` (index.js line 264):
`(modules || this.modules).filter(sec => sec !== Application.mainAppName)`,
paired with each name's registry entry. -/
def stopTargets (mods : List ModuleObj) : List ModuleObj :=
  mods.filter (fun m => !(m.name == mainAppName))

/-- `Application._stop` (index.js lines 262-295): the ordered list of slot
evaluations that `Promise.allSettled` receives. -/
def appStop (mainModuleCodeUpper : String) (mods : List ModuleObj) :
    List SlotResult :=
  (stopTargets mods).map (stopSlot mainModuleCodeUpper)

/-- The settled outcome of a slot, if it ever settles. -/
def SlotResult.settledOut (s : SlotResult) : Option (SettledOutcome JsVal JsVal) :=
  match s.fate with
  | .settledAt _ out => some out
  | .crashedAt _ _ => none

/-- `Promise.allSettled` settles exactly when every constituent slot has
settled, fulfilling with the ordered list of per-slot outcomes; it never
rejects.  `none` models an aggregate that never settles because some slot
never does. -/
def aggregateSettles (slots : List SlotResult) :
    Option (List (SettledOutcome JsVal JsVal)) :=
  slots.mapM SlotResult.settledOut

/-! ## Exit disposition -/

/-- The SIGINT continuation shared by `Application.signalInterrupt`
(index.js lines 331-337) and the handler in `src/lib/bin.js` (lines 69-75):
`const successExit = results.find(pm => pm.status !== 'fulfilled')` followed
by `process.exit(successExit ? 0 : 1)`. -/
def exitCodeOf {V E : Type} (results : List (SettledOutcome V E)) : Nat :=
  match results.find? (fun pm => !pm.isFulfilled) with
  | some _ => 0
  | none => 1

/-! ## Named dispatch `Application.module` -/

/-- The instance registry as the dispatcher observes it: the set of
registered keys of `this.allModules`, which functions each instance
exposes, and the value an exposed function call returns (the `...params`
argument vector is fixed throughout one dispatch and is abstracted into
`call`). -/
structure DispatchEnv (V : Type) where
  registered : List String
  hasFunc : String → String → Bool
  call : String → String → V

/-- The error `throwError(errCode)` raises with its default message
(`throwError' cu errCode "Error" false = .thrown (raisedBy cu errCode)`). -/
def raisedBy (mainModuleCodeUpper errCode : String) : JsError :=
  ⟨"Error", mainModuleCodeUpper ++ "_" ++ errCode⟩

/-- The `forEach` body of `Application.module` (index.js lines 314-323),
folded over the name list `nn` with the accumulated `results` array: an
unregistered name raises `MODULE_NOT_FOUND`; a registered name whose
instance exposes `func` pushes the call result; otherwise single-name mode
raises `MODULE_FUNCTION_NOT_FOUND` while batch mode pushes nothing. -/
def moduleDispatchGo {V : Type} (env : DispatchEnv V)
    (mainModuleCodeUpper : String) (isAr : Bool) (func : String) :
    List String → List V → Except JsError (List V)
  | [], results => .ok results
  | sec :: rest, results =>
    if !(env.registered.contains sec) then
      .error (raisedBy mainModuleCodeUpper "MODULE_NOT_FOUND")
    else if env.hasFunc sec func then
      moduleDispatchGo env mainModuleCodeUpper isAr func rest
        (results ++ [env.call sec func])
    else if !isAr then
      .error (raisedBy mainModuleCodeUpper "MODULE_FUNCTION_NOT_FOUND")
    else
      moduleDispatchGo env mainModuleCodeUpper isAr func rest results

/-- The `name` argument of `Application.module`: a single module name or an
array of names. -/
inductive NameArg where
  | single (s : String)
  | batch (l : List String)

/-- Return value of `Application.module`: `results` for batch mode,
`results.pop()` (the last pushed value, `undefined` when none) for
single-name mode. -/
inductive DispatchOut (V : Type) where
  | singleOut (v : Option V)
  | batchOut (vs : List V)
deriving DecidableEq, Repr

/-- `Application.module(name, func, ...params)` (index.js lines 307-325). -/
def moduleDispatch {V : Type} (env : DispatchEnv V)
    (mainModuleCodeUpper : String) (nameArg : NameArg) (func : String) :
    Except JsError (DispatchOut V) :=
  let isAr := match nameArg with | .batch _ => true | .single _ => false
  let nn := match nameArg with | .batch l => l | .single s => [s]
  match moduleDispatchGo env mainModuleCodeUpper isAr func nn [] with
  | .error e => .error e
  | .ok results =>
    .ok (if isAr then .batchOut results else .singleOut results.getLast?)

/-! ## Helper lemmas -/

theorem promiseAll_isFulfilled {V E : Type} (ps : List (SettledOutcome V E)) :
    (promiseAll ps).isFulfilled = ps.all SettledOutcome.isFulfilled := by
  induction ps with
  | nil => rfl
  | cons p rest ih =>
    cases p with
    | rejected e => simp [promiseAll, SettledOutcome.isFulfilled]
    | fulfilled v =>
      simp only [promiseAll, List.all_cons, SettledOutcome.isFulfilled, Bool.true_and]
      cases hr : promiseAll rest with
      | fulfilled vs =>
        rw [hr] at ih
        simpa [SettledOutcome.isFulfilled] using ih
      | rejected e =>
        rw [hr] at ih
        simpa [SettledOutcome.isFulfilled] using ih

theorem promiseAll_firstRejected {V E : Type} (ps : List (SettledOutcome V E))
    (e : E) (h : firstRejected ps = some e) : promiseAll ps = .rejected e := by
  induction ps with
  | nil => simp [firstRejected, List.findSome?] at h
  | cons p rest ih =>
    cases p with
    | rejected e' =>
      have he : e' = e := by
        simpa [firstRejected, List.findSome?, SettledOutcome.rejectedErr] using h
      subst he
      rfl
    | fulfilled v =>
      have h' : firstRejected rest = some e := by
        simpa [firstRejected, List.findSome?, SettledOutcome.rejectedErr] using h
      simp [promiseAll, ih h']

theorem initFold_preserves_main {Cfg Cls : Type} (st : AppState Cfg Cls)
    (names : List String) (acc : List (String × InstanceVal Cls))
    (h : getKey acc mainAppName = some .appSelf) :
    getKey (names.foldl (initStep st) acc) mainAppName = some .appSelf := by
  induction names generalizing acc with
  | nil => exact h
  | cons sec rest ih =>
    simp only [List.foldl_cons]
    apply ih
    unfold initStep
    cases hs : sec == mainAppName with
    | true =>
      have : sec = mainAppName := eq_of_beq hs
      subst this
      simp [getKey_setKey_self]
    | false =>
      simp only [Bool.false_eq_true, if_false]
      rw [getKey_setKey_ne _ _ _ _ hs]
      exact h

theorem initFold_main_self {Cfg Cls : Type} (st : AppState Cfg Cls)
    (names : List String) (acc : List (String × InstanceVal Cls))
    (h : mainAppName ∈ names) :
    getKey (names.foldl (initStep st) acc) mainAppName = some .appSelf := by
  induction names generalizing acc with
  | nil => cases h
  | cons sec rest ih =>
    rcases List.mem_cons.mp h with heq | hmem
    · simp only [List.foldl_cons]
      apply initFold_preserves_main
      subst heq
      unfold initStep
      rw [if_pos (beq_self_eq_true mainAppName)]
      exact getKey_setKey_self acc mainAppName .appSelf
    · simp only [List.foldl_cons]
      exact ih _ hmem

theorem moduleDispatchGo_batch {V : Type} (env : DispatchEnv V)
    (cu func : String) (names : List String) (acc : List V)
    (h : ∀ s ∈ names, env.registered.contains s = true) :
    moduleDispatchGo env cu true func names acc =
      .ok (acc ++ (names.filter (fun s => env.hasFunc s func)).map
              (fun s => env.call s func)) := by
  induction names generalizing acc with
  | nil => simp [moduleDispatchGo]
  | cons sec rest ih =>
    have hsec : env.registered.contains sec = true := h sec (List.mem_cons_self sec rest)
    have hrest : ∀ s ∈ rest, env.registered.contains s = true :=
      fun s hs => h s (List.mem_cons_of_mem sec hs)
    simp only [moduleDispatchGo, hsec, Bool.not_true, Bool.false_eq_true, if_false]
    cases hf : env.hasFunc sec func with
    | true =>
      rw [if_pos rfl, ih _ hrest]
      simp [List.filter_cons, hf, List.append_assoc]
    | false =>
      simp only [Bool.false_eq_true, if_false, Bool.not_true, if_neg]
      rw [ih _ hrest]
      simp [List.filter_cons, hf]

end Mbjs

open Mbjs

/-! ## Claims -/

/-- C1: the claim says the aggregate returned by `stop` settles once every
per-module slot has settled, never rejects and never fails fast,
"regardless of how many individual module stops fail or time out".  The
settle-all part is real (third conjunct: a rejected slot does not abort the
aggregate), but the timeout part is not: for a module whose `stop()` never
settles, `tmFunc` fires at 2000 ms with `this` bound to the Timeout object,
raises an uncaught `TypeError` before `reject` runs, so that slot — and
hence the aggregate — never settles (first two conjuncts). -/
theorem C1_stop_aggregate_on_timeout :
    aggregateSettles (appStop "MBJS_APP"
        [{ name := "m", hasStart := false, startOutcome := .fulfilled (.numV 0),
           hasStop := true, stopTimeout := none, stopSettle := none }]) = none ∧
    appStop "MBJS_APP"
        [{ name := "m", hasStart := false, startOutcome := .fulfilled (.numV 0),
           hasStop := true, stopTimeout := none, stopSettle := none }] =
      [⟨.crashedAt 2000 (timeoutMsg "m" 2000), false⟩] ∧
    aggregateSettles (appStop "MBJS_APP"
        [{ name := "f", hasStart := false, startOutcome := .fulfilled (.numV 0),
           hasStop := true, stopTimeout := none,
           stopSettle := some (10, .rejected (.errV "X" "boom")) },
         { name := "g", hasStart := false, startOutcome := .fulfilled (.numV 0),
           hasStop := true, stopTimeout := none,
           stopSettle := some (0, .fulfilled (.numV 1)) }]) =
      some [.rejected (.errV "X" "boom"), .fulfilled (.numV 1)] :=
  ⟨rfl, rfl, rfl⟩

/-- C2: the claim says the exit disposition is 0 iff every slot is
fulfilled.  The code computes `successExit = results.find(pm => pm.status
!== 'fulfilled')` and then `process.exit(successExit ? 0 : 1)`, which is
inverted: an all-fulfilled result list exits 1 and a list containing a
rejected slot exits 0. -/
theorem C2_exit_code_inverted :
    exitCodeOf ([.fulfilled (.numV 0)] : List (SettledOutcome JsVal JsVal)) = 1 ∧
    exitCodeOf ([.fulfilled (.numV 0), .rejected (.errV "E" "boom")] :
        List (SettledOutcome JsVal JsVal)) = 0 :=
  ⟨rfl, rfl⟩

/-- C3: the claim says the race uses the module's `stopTimeoutMs` (default
2000 ms) and that a timer firing first settles the slot as rejected with a
timeout error naming the module and duration.  The code reads the
attribute `stopTimeout` (first two conjuncts show the default and declared
cases of that attribute); on fire the timeout message naming the module and
the duration is logged, but `this.throwError` is looked up on the Timeout
object, so the callback raises an uncaught `TypeError` and the slot is
never rejected (last two conjuncts). -/
theorem C3_timer_fire_no_rejection :
    tmOf { name := "m", hasStart := false, startOutcome := .fulfilled (.numV 0),
           hasStop := true, stopTimeout := none, stopSettle := none } = 2000 ∧
    tmOf { name := "m", hasStart := false, startOutcome := .fulfilled (.numV 0),
           hasStop := true, stopTimeout := some 500, stopSettle := none } = 500 ∧
    timeoutMsg "m" 2000 = "Stopping of m timed out after 2000 ms!" ∧
    tmFuncRun "MBJS_APP" "m" 2000 timerThis =
      .uncaughtTypeError (timeoutMsg "m" 2000) ∧
    stopSlot "MBJS_APP"
        { name := "m", hasStart := false, startOutcome := .fulfilled (.numV 0),
          hasStop := true, stopTimeout := none,
          stopSettle := some (5000, .fulfilled (.numV 1)) } =
      ⟨.crashedAt 2000 (timeoutMsg "m" 2000), false⟩ :=
  ⟨rfl, rfl, rfl, rfl, rfl⟩

/-- C4: the claim says that when `stop()` settles before the timer, the
timer is cleared so the timeout message is never produced.  The slot does
settle with the module's own resolution (second conjunct), but
`clearTimeout` is given the callback `tmFunc` instead of the handle that
`setTimeout` returned, which cancels nothing (first conjunct), so the timer
is still pending and later fires, produces the timeout log line and raises
an uncaught `TypeError` (third conjunct). -/
theorem C4_clear_timeout_noop :
    clearTimeoutCancels stopClearArg = false ∧
    stopSlot "MBJS_APP"
        { name := "q", hasStart := false, startOutcome := .fulfilled (.numV 0),
          hasStop := true, stopTimeout := none,
          stopSettle := some (0, .fulfilled (.numV 1)) } =
      ⟨.settledAt 0 (.fulfilled (.numV 1)), true⟩ ∧
    pendingTimerEffect "MBJS_APP"
        { name := "q", hasStart := false, startOutcome := .fulfilled (.numV 0),
          hasStop := true, stopTimeout := none,
          stopSettle := some (0, .fulfilled (.numV 1)) } =
      some (2000, .uncaughtTypeError (timeoutMsg "q" 2000)) :=
  ⟨rfl, rfl, rfl⟩

/-- C5: a module exposing no stop capability gets its slot settled
immediately as fulfilled (with the benign value
`'stop MODULE_FUNCTION_NOT_FOUND'`), no timer is scheduled for it, so it
can never block or fail the aggregated shutdown. -/
theorem C5_no_stop_capability_fulfilled (cu : String) (m : ModuleObj)
    (h : m.hasStop = false) :
    stopSlot cu m =
      ⟨.settledAt 0 (.fulfilled (.strV "stop MODULE_FUNCTION_NOT_FOUND")), false⟩ := by
  simp [stopSlot, h]

theorem C5_no_stop_capability_witness :
    stopSlot "MBJS_APP"
        { name := "n", hasStart := false, startOutcome := .fulfilled (.numV 0),
          hasStop := false, stopTimeout := none, stopSettle := none } =
      ⟨.settledAt 0 (.fulfilled (.strV "stop MODULE_FUNCTION_NOT_FOUND")), false⟩ :=
  C5_no_stop_capability_fulfilled "MBJS_APP" _ rfl

/-- C6: `_start` invokes `start()` exactly on the instances of the iterated
set that expose a start capability (and are not the main-app key), joined
with `Promise.all`: the result is fulfilled iff every such start fulfills,
and any rejection rejects the whole start with the first rejection's
reason. -/
theorem C6_start_all_or_nothing (mods : List ModuleObj) :
    (∀ m ∈ startTargets mods, m.hasStart = true) ∧
    ((appStart mods).isFulfilled = true ↔
      ∀ m ∈ startTargets mods, m.startOutcome.isFulfilled = true) ∧
    (∀ e, firstRejected ((startTargets mods).map ModuleObj.startOutcome) = some e →
      appStart mods = .rejected e) := by
  refine ⟨?_, ?_, ?_⟩
  · intro m hm
    have hp := (List.mem_filter.mp hm).2
    exact (Bool.and_eq_true _ _ |>.mp hp).2
  · rw [appStart, promiseAll_isFulfilled]
    simp [List.all_map, List.all_eq_true, Function.comp]
  · intro e he
    exact promiseAll_firstRejected _ e he

theorem C6_start_witness :
    (∀ m ∈ startTargets
        [{ name := "a", hasStart := true, startOutcome := .rejected (.errV "E" "no"),
           hasStop := false, stopTimeout := none, stopSettle := none }],
      m.hasStart = true) ∧
    ((appStart
        [{ name := "a", hasStart := true, startOutcome := .rejected (.errV "E" "no"),
           hasStop := false, stopTimeout := none, stopSettle := none }]).isFulfilled = true ↔
      ∀ m ∈ startTargets
        [{ name := "a", hasStart := true, startOutcome := .rejected (.errV "E" "no"),
           hasStop := false, stopTimeout := none, stopSettle := none }],
        m.startOutcome.isFulfilled = true) ∧
    (∀ e, firstRejected ((startTargets
        [{ name := "a", hasStart := true, startOutcome := .rejected (.errV "E" "no"),
           hasStop := false, stopTimeout := none, stopSettle := none }]).map
          ModuleObj.startOutcome) = some e →
      appStart
        [{ name := "a", hasStart := true, startOutcome := .rejected (.errV "E" "no"),
           hasStop := false, stopTimeout := none, stopSettle := none }] = .rejected e) :=
  C6_start_all_or_nothing _

/-- C7: on a registered instance lacking the requested function, dispatch
with a single name raises `MODULE_FUNCTION_NOT_FOUND` (namespaced), while
dispatch with an array of registered names silently skips every instance
lacking the function and returns, in input order, exactly the results of
the instances that expose it. -/
theorem C7_dispatch_asymmetry {V : Type} (env : DispatchEnv V)
    (cu sec func : String) (names : List String)
    (hreg : env.registered.contains sec = true)
    (hfn : env.hasFunc sec func = false)
    (hall : ∀ s ∈ names, env.registered.contains s = true) :
    moduleDispatch env cu (.single sec) func =
      .error (raisedBy cu "MODULE_FUNCTION_NOT_FOUND") ∧
    moduleDispatch env cu (.batch names) func =
      .ok (.batchOut ((names.filter (fun s => env.hasFunc s func)).map
            (fun s => env.call s func))) := by
  constructor
  · have hmem : sec ∈ env.registered := by simpa using hreg
    simp [moduleDispatch, moduleDispatchGo, hreg, hmem, hfn]
  · simp [moduleDispatch, moduleDispatchGo_batch env cu func names [] hall]

theorem C7_dispatch_witness :
    moduleDispatch
        { registered := ["a", "b"], hasFunc := fun s _ => s == "a",
          call := fun _ _ => (5 : Nat) } "MBJS_APP" (.single "b") "doIt" =
      .error (raisedBy "MBJS_APP" "MODULE_FUNCTION_NOT_FOUND") ∧
    moduleDispatch
        { registered := ["a", "b"], hasFunc := fun s _ => s == "a",
          call := fun _ _ => (5 : Nat) } "MBJS_APP" (.batch ["a", "b"]) "doIt" =
      .ok (.batchOut [5]) := by
  have h := C7_dispatch_asymmetry
    { registered := ["a", "b"], hasFunc := fun s _ => s == "a",
      call := fun _ _ => (5 : Nat) } "MBJS_APP" "b" "doIt" ["a", "b"]
    rfl rfl (by decide)
  exact ⟨h.1, h.2.trans (by rfl)⟩

/-- C8: `throwError` builds an error whose `code` is the main application's
name with hyphens replaced by underscores and upper-cased, then an
underscore, then the given code; with `justReturn` the error is returned,
otherwise it is thrown. -/
theorem C8_throwError_namespaced (name errCode msg : String) (justReturn : Bool) :
    throwError' (mainCodeOf name) errCode msg justReturn =
      if justReturn then .returned ⟨msg, specCodeOf name ++ "_" ++ errCode⟩
      else .thrown ⟨msg, specCodeOf name ++ "_" ++ errCode⟩ := by
  rw [mainCodeOf_eq_specCodeOf]
  cases justReturn <;> rfl

/-- C9: `require` on a name absent from the configuration inserts the given
default config under that name and appends the name to the module-name
list; on a name already present it changes neither the configuration nor
the module-name list and only overwrites that name's class-registry
entry. -/
theorem C9_require_registration {Cfg Cls : Type} (resolveMod : String → Cls)
    (st : AppState Cfg Cls) (sec : String) (conf : Cfg) :
    (hasOwn st.config sec = false →
      requireModules resolveMod st (some [sec]) conf =
        { config := st.config ++ [(sec, conf)]
          modules := st.modules ++ [sec]
          AllModules := setKey st.AllModules sec (resolveMod sec) }) ∧
    (hasOwn st.config sec = true →
      requireModules resolveMod st (some [sec]) conf =
        { st with AllModules := setKey st.AllModules sec (resolveMod sec) }) := by
  constructor
  · intro h
    simp [requireModules, requireOne, h]
  · intro h
    simp [requireModules, requireOne, h]

theorem C9_require_witness :
    requireModules (fun _ => (7 : Nat))
        (⟨[("a", 1)], ["a"], []⟩ : AppState Nat Nat) (some ["a"]) 0 =
      { config := [("a", 1)], modules := ["a"], AllModules := [("a", 7)] } := by
  have h := (C9_require_registration (fun _ => (7 : Nat))
    (⟨[("a", 1)], ["a"], []⟩ : AppState Nat Nat) "a" 0).2 rfl
  exact h.trans (by rfl)

/-- C10: `init` binds the main-app key to the application itself (no module
class is constructed for it), and the iteration sets of both `_start` and
`_stop` filter the main-app key out, so the application's own start/stop
are never invoked as module capabilities. -/
theorem C10_main_app_special {Cfg Cls : Type} (st : AppState Cfg Cls)
    (inst0 : List (String × InstanceVal Cls)) (names : List String)
    (h : mainAppName ∈ names) :
    getKey (initModules st inst0 (some names)) mainAppName =
      some InstanceVal.appSelf ∧
    (∀ mods : List ModuleObj, ∀ m ∈ startTargets mods, m.name ≠ mainAppName) ∧
    (∀ mods : List ModuleObj, ∀ m ∈ stopTargets mods, m.name ≠ mainAppName) := by
  refine ⟨initFold_main_self st names inst0 h, ?_, ?_⟩
  · intro mods m hm
    have hp := (List.mem_filter.mp hm).2
    have := (Bool.and_eq_true _ _ |>.mp hp).1
    simpa [Bool.not_eq_true', beq_eq_false_iff_ne] using this
  · intro mods m hm
    have hp := (List.mem_filter.mp hm).2
    simpa [Bool.not_eq_true', beq_eq_false_iff_ne] using hp

theorem C10_main_app_witness :
    getKey (initModules (⟨[], [mainAppName], []⟩ : AppState Nat Nat) []
        (some [mainAppName])) mainAppName = some InstanceVal.appSelf ∧
    (∀ mods : List ModuleObj, ∀ m ∈ startTargets mods, m.name ≠ mainAppName) ∧
    (∀ mods : List ModuleObj, ∀ m ∈ stopTargets mods, m.name ≠ mainAppName) :=
  C10_main_app_special _ _ _ (List.mem_singleton.mpr rfl)
